import Mathlib

/-!
Verification of the streaming relay server `pulse_stream_server.py`.

The relay (`StreamHandler.do_GET`) is embedded shallowly:
* a source (the encoder's stdout) is modelled as the list of successive
  read results; a read past the end of the list, like a read from a pipe
  at EOF, returns the empty byte string;
* a sink (the client socket) is modelled by an optional byte capacity:
  a write that would push the cumulative accepted bytes past the capacity
  raises a disconnect error (BrokenPipeError / ConnectionResetError);
* bytes are `Nat`s (values of individual bytes are never inspected).
-/

/-- Steady-state read size: `chunk_size = 2048` in `do_GET`. -/
def chunk_size : Nat := 2048

/-- Pre-buffer target: `prebuffer_size = 40960` in `do_GET`. -/
def prebuffer_size : Nat := 40960

/-- Read size requested by each pre-buffer read: `process.stdout.read(8192)`. -/
def prebufferReadSize : Nat := 8192

/-- The fake Content-Length sent for the stream: `100 * 1024 * 1024 * 1024`. -/
def fakeContentLength : Nat := 100 * 1024 * 1024 * 1024

/-- Whether a sink write of `len` bytes succeeds when `sent` bytes have already
been accepted: with no capacity (`none`) every write succeeds; with capacity
`some c` the write raises a disconnect error iff it would exceed `c`. -/
def writeOk (cap : Option Nat) (sent len : Nat) : Bool :=
  match cap with
  | none => true
  | some c => decide (sent + len ≤ c)

/-- The pre-buffer accumulation loop of `do_GET`
(`while len(prebuffer) < prebuffer_size: data = read(); if not data: break;
prebuffer += data`).  Returns the accumulated buffer and the reads not yet
consumed. -/
def prebufferLoop (psz : Nat) (acc : List Nat) :
    List (List Nat) → List Nat × List (List Nat)
  | [] => (acc, [])
  | r :: rs =>
    if acc.length < psz then
      if r = [] then (acc, rs) else prebufferLoop psz (acc ++ r) rs
    else (acc, r :: rs)

/-- The steady-state relay loop of `do_GET`: read a chunk, stop on an empty
read, otherwise write it to the sink (stopping with a disconnect if the write
fails) and add its length to `bytes_sent`.  Returns the successful writes, the
final `bytes_sent`, and whether the loop ended in a disconnect. -/
def steadyLoop (cap : Option Nat) (sent : Nat) :
    List (List Nat) → List (List Nat) × Nat × Bool
  | [] => ([], sent, false)
  | r :: rs =>
    if r = [] then ([], sent, false)
    else if writeOk cap sent r.length then
      let p := steadyLoop cap (sent + r.length) rs
      (r :: p.1, p.2.1, p.2.2)
    else ([], sent, true)

/-- Result of one relay session (the body of the inner `try` of `do_GET`):
the successful sink writes in order (the pre-buffer write, when the
pre-buffer is nonempty, followed by the steady-state chunk writes), the final
value of `bytes_sent` (which is also the number logged if the client
disconnects), and whether the session ended via the disconnect handler. -/
structure SessionResult where
  writes : List (List Nat)
  bytesSent : Nat
  disconnected : Bool
deriving DecidableEq, Repr

/-- One relay session of `do_GET` after a successful spawn: pre-buffer phase,
single pre-buffer write (only if the buffer is nonempty; `bytes_sent` is set
to its length only after the write succeeds), then the steady-state loop. -/
def runSession (cap : Option Nat) (psz : Nat) (rs : List (List Nat)) :
    SessionResult :=
  let pr := prebufferLoop psz [] rs
  if pr.1 = [] then
    let st := steadyLoop cap 0 pr.2
    ⟨st.1, st.2.1, st.2.2⟩
  else if writeOk cap 0 pr.1.length then
    let st := steadyLoop cap pr.1.length pr.2
    ⟨pr.1 :: st.1, st.2.1, st.2.2⟩
  else ⟨[], 0, true⟩

/-!
Encoder process teardown (`finally:` block of `do_GET`):
`process.terminate(); try: process.wait(timeout=2)
except TimeoutExpired: process.kill(); process.wait()`.
-/

/-- Behaviour of the spawned encoder process with respect to teardown:
whether it exits within the 2-second `wait(timeout=2)` window after
receiving the graceful `terminate()` signal. -/
structure EncoderBehavior where
  exitsWithinTimeout : Bool
deriving DecidableEq, Repr

/-- Lifecycle state of the encoder process. -/
inductive PState
  | running
  | exited
  | reaped
deriving DecidableEq, Repr

/-- Teardown actions performed by the `finally:` block, in order.
`waitGrace t` is `process.wait(timeout=t)`; `waitReap` is the final
untimed `process.wait()`. -/
inductive TAct
  | terminate
  | waitGrace (t : Nat)
  | kill
  | waitReap
deriving DecidableEq, Repr

/-- Effect of `process.terminate()` (SIGTERM): a running process that honours
the signal exits within the subsequent wait window; one that ignores it keeps
running. -/
def applyTerminate (b : EncoderBehavior) : PState → PState
  | PState.running => if b.exitsWithinTimeout then PState.exited else PState.running
  | s => s

/-- Effect of `process.kill()` (SIGKILL): cannot be ignored. -/
def applyKill : PState → PState
  | PState.running => PState.exited
  | s => s

/-- Effect of a `process.wait(...)` call: an exited process is reaped and the
wait returns normally; a still-running process leaves the wait by timeout
(`TimeoutExpired`), second component `false`. -/
def waitResult : PState → PState × Bool
  | PState.exited => (PState.reaped, true)
  | s => (s, false)

/-- The `finally:` block of `do_GET`: terminate, wait up to 2 seconds, and on
timeout kill and wait again.  Returns the trace of actions and the final
process state. -/
def teardownProc (b : EncoderBehavior) : List TAct × PState :=
  let s1 := applyTerminate b PState.running
  let w1 := waitResult s1
  if w1.2 then
    ([TAct.terminate, TAct.waitGrace 2], w1.1)
  else
    let s3 := applyKill w1.1
    ([TAct.terminate, TAct.waitGrace 2, TAct.kill, TAct.waitReap],
      (waitResult s3).1)

/-!
The HTTP surface of `StreamHandler.do_GET`.
-/

/-- Whether `subprocess.Popen(ffmpeg_cmd, ...)` succeeds or raises (missing
binary, permission error, ...). -/
inductive SpawnResult
  | ok
  | fail
deriving DecidableEq, Repr

/-- The headers sent for `/stream.mp3` (lines 26-35 of the source), in order.
The Content-Length is the fake 100 GiB constant and the Connection header is
the literal `keep-alive`. -/
def streamHeaders : List (String × String) :=
  [("Content-Type", "audio/mpeg"),
   ("Content-Length", toString fakeContentLength),
   ("Cache-Control", "no-cache"),
   ("Connection", "keep-alive")]

/-- The response produced by `do_GET` for one request: the stream response
(status 200 with `streamHeaders`, and — when the spawn succeeded — a relay
session followed by the teardown of the encoder), the static status page
(status 200, `text/html`), or `send_error(404)`. -/
inductive Response
  | stream (headers : List (String × String))
      (sess : Option (SessionResult × (List TAct × PState)))
  | statusPage
  | notFound
deriving DecidableEq, Repr

/-- HTTP status code of a response. -/
def statusCode : Response → Nat
  | Response.stream _ _ => 200
  | Response.statusPage => 200
  | Response.notFound => 404

/-- Headers of a response (the status page sends only `text/html`;
`send_error(404)` sends none that we model). -/
def headersOf : Response → List (String × String)
  | Response.stream h _ => h
  | Response.statusPage => [("Content-Type", "text/html")]
  | Response.notFound => []

/-- Session-plus-teardown component of a response, when a relay ran. -/
def sessionOf : Response → Option (SessionResult × (List TAct × PState))
  | Response.stream _ s => s
  | _ => none

/-- The audio-payload writes made to the client socket by a response. -/
def writesOf (r : Response) : List (List Nat) :=
  match sessionOf r with
  | some (s, _) => s.writes
  | none => []

/-- Shallow embedding of `StreamHandler.do_GET`: routing on the request path;
for `/stream.mp3` the status line and headers are sent first, then the
encoder is spawned — on spawn failure the outer `except` merely logs, so the
client still got the 200 head and no session runs; on success the relay
session runs and the `finally:` block tears the encoder down. -/
def doGET (path : String) (spawn : SpawnResult) (b : EncoderBehavior)
    (cap : Option Nat) (psz : Nat) (rs : List (List Nat)) : Response :=
  if path = "/stream.mp3" then
    match spawn with
    | SpawnResult.fail => Response.stream streamHeaders none
    | SpawnResult.ok =>
      Response.stream streamHeaders (some (runSession cap psz rs, teardownProc b))
  else if path = "/" then Response.statusPage
  else Response.notFound

/-!
ICY metadata interleaver.  The source file only carries the commented-out
declaration `METADATA_INTERVAL = 100000` ("No longer needed without ICY
metadata"); the interleaver itself is not present under `src/`, so it is
modelled from the spec (section 4.3).
-/

/-- Items of the interleaved stream: audio chunks and metadata blocks. -/
inductive StreamItem
  | audio (bs : List Nat)
  | meta (bs : List Nat)
deriving DecidableEq, Repr

/-- Modelled from the spec: the unpadded metadata text
`StreamTitle='<name>';` as ASCII byte values (the 13 bytes of
`StreamTitle=` followed by an apostrophe, the title, an apostrophe and a
semicolon). -/
def rawMeta (title : List Nat) : List Nat :=
  [83, 116, 114, 101, 97, 109, 84, 105, 116, 108, 101, 61, 39] ++
    title ++ [39, 59]

/-- Modelled from the spec: the metadata text padded with null bytes to the
next multiple of 16. -/
def paddedMeta (title : List Nat) : List Nat :=
  rawMeta title ++
    List.replicate (16 * (((rawMeta title).length + 15) / 16) -
      (rawMeta title).length) 0

/-- Modelled from the spec: a full metadata block — a single length byte (the
padded payload length in units of 16 bytes) followed by the padded payload. -/
def metaBlock (title : List Nat) : List Nat :=
  (paddedMeta title).length / 16 :: paddedMeta title

/-- Modelled from the spec: the steady-state loop with the metadata
interleaver active.  `c` is the Metadata Cadence Counter ("bytes remaining
until next metadata block"); each read requests `min chunk_size counter`
bytes, the counter is decremented by the bytes actually obtained, and when it
reaches zero one metadata block is emitted and the counter resets to the full
cadence `M`.  `fuel` bounds the recursion; every productive step consumes at
least one source byte, so `src.length` fuel is always enough. -/
def interleaveGo (C M : Nat) (title : List Nat) :
    Nat → Nat → List Nat → List StreamItem
  | 0, _, _ => []
  | Nat.succ fuel, c, src =>
    if src.take (min C c) = [] then []
    else if c - (src.take (min C c)).length = 0 then
      StreamItem.audio (src.take (min C c)) ::
        StreamItem.meta (metaBlock title) ::
          interleaveGo C M title fuel M (src.drop (min C c))
    else
      StreamItem.audio (src.take (min C c)) ::
        interleaveGo C M title fuel (c - (src.take (min C c)).length)
          (src.drop (min C c))

/-- Modelled from the spec: the interleaved stream produced for a source byte
sequence `src`, chunk size `C`, cadence `M`; the cadence counter starts at
the full cadence. -/
def interleave (C M : Nat) (title : List Nat) (src : List Nat) :
    List StreamItem :=
  interleaveGo C M title src.length M src

/-- Number of metadata blocks in an interleaved stream. -/
def countMeta : List StreamItem → Nat
  | [] => 0
  | StreamItem.meta _ :: rest => countMeta rest + 1
  | StreamItem.audio _ :: rest => countMeta rest

/-- The audio byte counts preceding each metadata block of a stream, in
order: `acc` audio bytes already seen since the last block (or the start). -/
def metaGaps : Nat → List StreamItem → List Nat
  | _, [] => []
  | acc, StreamItem.audio a :: rest => metaGaps (acc + a.length) rest
  | acc, StreamItem.meta _ :: rest => acc :: metaGaps 0 rest

/-!
The renderer control adapter `play_stream_on_sonos`.
-/

/-- The scheme prefix tested by `stream_url.startswith` in
`play_stream_on_sonos`, as characters. -/
def httpScheme : List Char := ['h', 't', 't', 'p', ':', '/', '/']

/-- The vendor streaming scheme substituted by `play_stream_on_sonos`. -/
def rinconScheme : List Char :=
  ['x', '-', 'r', 'i', 'n', 'c', 'o', 'n', '-', 'm', 'p', '3',
   'r', 'a', 'd', 'i', 'o', ':', '/', '/']

/-- Python's `str.replace(pat, rep, 1)`: replace the first occurrence of
`pat`, if any. -/
def replaceOnce (pat rep : List Char) : List Char → List Char
  | [] => []
  | c :: s =>
    if pat.isPrefixOf (c :: s) then rep ++ (c :: s).drop pat.length
    else c :: replaceOnce pat rep s

/-- The URL rewrite of `play_stream_on_sonos`: if the URL starts with
`http` and the scheme separator, replace that prefix (its first occurrence)
by the `x-rincon-mp3radio` scheme, else leave the URL unchanged. -/
def radio_url (u : List Char) : List Char :=
  if httpScheme.isPrefixOf u then replaceOnce httpScheme rinconScheme u
  else u

/-- Which of the three renderer calls raise, modelling the device's
behaviour as seen through the `soco` library. -/
structure SonosBehavior where
  stopFails : Bool
  clearFails : Bool
  playFails : Bool
deriving DecidableEq, Repr

/-- Calls attempted on the renderer, in order. -/
inductive SAct
  | stop
  | clearQueue
  | playUri (u : List Char)
deriving DecidableEq, Repr

/-- Shallow embedding of `play_stream_on_sonos`: stop, clear the queue,
rewrite the URL and submit it; the surrounding `try`/`except` converts any
raise into a `False` return, so the function always returns a boolean.
Returns the calls attempted (a call that raises is still attempted) and the
returned boolean. -/
def play_stream_on_sonos (b : SonosBehavior) (u : List Char) :
    List SAct × Bool :=
  if b.stopFails then ([SAct.stop], false)
  else if b.clearFails then ([SAct.stop, SAct.clearQueue], false)
  else if b.playFails then
    ([SAct.stop, SAct.clearQueue, SAct.playUri (radio_url u)], false)
  else ([SAct.stop, SAct.clearQueue, SAct.playUri (radio_url u)], true)

/-!
Lemmas about the relay loops.
-/

/-- The pre-buffer loop loses no bytes: buffer plus unconsumed reads carry
exactly the accumulator plus all reads (given that no read before EOF is
empty), and the unconsumed reads are still all nonempty. -/
theorem prebufferLoop_split (psz : Nat) (acc : List Nat)
    (rs : List (List Nat)) (h : ∀ r ∈ rs, r ≠ []) :
    (prebufferLoop psz acc rs).1 ++ (prebufferLoop psz acc rs).2.flatten =
      acc ++ rs.flatten ∧
    ∀ r ∈ (prebufferLoop psz acc rs).2, r ≠ [] := by
  induction rs generalizing acc with
  | nil => simp [prebufferLoop]
  | cons r rs ih =>
    have hr : r ≠ [] := h r (by simp)
    by_cases hl : acc.length < psz
    · have hrest : ∀ x ∈ rs, x ≠ [] := fun x hx => h x (by simp [hx])
      have := ih (acc ++ r) hrest
      simp only [prebufferLoop, if_pos hl, if_neg hr]
      refine ⟨?_, this.2⟩
      rw [this.1]
      simp
    · simp only [prebufferLoop, if_neg hl]
      exact ⟨by simp, h⟩

/-- When the pre-buffer loop stops, either the buffer reached the target
size, or the source was exhausted and the buffer holds every byte. -/
theorem prebufferLoop_stop (psz : Nat) (acc : List Nat)
    (rs : List (List Nat)) (h : ∀ r ∈ rs, r ≠ []) :
    psz ≤ (prebufferLoop psz acc rs).1.length ∨
    ((prebufferLoop psz acc rs).2 = [] ∧
      (prebufferLoop psz acc rs).1 = acc ++ rs.flatten) := by
  induction rs generalizing acc with
  | nil => simp [prebufferLoop]
  | cons r rs ih =>
    have hr : r ≠ [] := h r (by simp)
    by_cases hl : acc.length < psz
    · have hrest : ∀ x ∈ rs, x ≠ [] := fun x hx => h x (by simp [hx])
      simp only [prebufferLoop, if_pos hl, if_neg hr]
      rcases ih (acc ++ r) hrest with h1 | h2
      · exact Or.inl h1
      · exact Or.inr ⟨h2.1, by rw [h2.2]; simp⟩
    · exact Or.inl (by simp [prebufferLoop, if_neg hl]; omega)

/-- With an unbounded sink, the steady-state loop writes every read (given
that no read before EOF is empty), and the final `bytes_sent` adds the total
byte count to the initial one. -/
theorem steadyLoop_none (sent : Nat) (rs : List (List Nat))
    (h : ∀ r ∈ rs, r ≠ []) :
    steadyLoop none sent rs = (rs, sent + rs.flatten.length, false) := by
  induction rs generalizing sent with
  | nil => simp [steadyLoop]
  | cons r rs ih =>
    have hr : r ≠ [] := h r (by simp)
    have hrest : ∀ x ∈ rs, x ≠ [] := fun x hx => h x (by simp [hx])
    simp only [steadyLoop, if_neg hr, writeOk, if_pos rfl]
    rw [ih (sent + r.length) hrest]
    simp
    omega

/-- `bytes_sent` accounting: whatever the sink does, the final `bytes_sent`
of the steady-state loop is the initial value plus the lengths of the
successful writes. -/
theorem steadyLoop_bytes (cap : Option Nat) (sent : Nat)
    (rs : List (List Nat)) :
    (steadyLoop cap sent rs).2.1 =
      sent + ((steadyLoop cap sent rs).1.map List.length).sum := by
  induction rs generalizing sent with
  | nil => simp [steadyLoop]
  | cons r rs ih =>
    by_cases hr : r = []
    · simp [steadyLoop, hr]
    · by_cases hw : writeOk cap sent r.length
      · simp only [steadyLoop, if_neg hr, if_pos hw]
        rw [ih (sent + r.length)]
        simp
        omega
      · simp [steadyLoop, if_neg hr, hw]

/-- A sink of capacity `c` never accepts more than `c` bytes: the final
`bytes_sent` stays at most `c` when it starts at most `c`. -/
theorem steadyLoop_cap (c sent : Nat) (rs : List (List Nat))
    (h : sent ≤ c) :
    (steadyLoop (some c) sent rs).2.1 ≤ c := by
  induction rs generalizing sent with
  | nil => simpa [steadyLoop]
  | cons r rs ih =>
    by_cases hr : r = []
    · simpa [steadyLoop, hr]
    · by_cases hw : writeOk (some c) sent r.length
      · have hz : sent + r.length ≤ c := by
          simpa [writeOk] using hw
        simp only [steadyLoop, if_neg hr, if_pos hw]
        exact ih (sent + r.length) hz
      · simpa [steadyLoop, if_neg hr, hw]

/-- With an unbounded sink and a source whose reads before EOF are all
nonempty, a session writes exactly the source bytes, counts them all in
`bytes_sent`, and does not end in a disconnect. -/
theorem runSession_none_spec (psz : Nat) (rs : List (List Nat))
    (h : ∀ r ∈ rs, r ≠ []) :
    ((runSession none psz rs).writes).flatten = rs.flatten ∧
    (runSession none psz rs).bytesSent = rs.flatten.length ∧
    (runSession none psz rs).disconnected = false := by
  obtain ⟨hsplit, hne⟩ := prebufferLoop_split psz [] rs h
  simp only [List.nil_append] at hsplit
  simp only [runSession]
  by_cases hpb : (prebufferLoop psz [] rs).1 = []
  · rw [if_pos hpb]
    rw [steadyLoop_none 0 _ hne]
    rw [hpb] at hsplit
    simp only [List.nil_append] at hsplit
    simp [hsplit]
  · rw [if_neg hpb]
    have hw : writeOk none 0 (prebufferLoop psz [] rs).1.length = true := rfl
    rw [if_pos hw]
    rw [steadyLoop_none _ _ hne]
    refine ⟨by simpa using hsplit, ?_, rfl⟩
    simp only
    rw [← hsplit]
    simp

/-- Whatever the sink capacity, the final `bytes_sent` of a session is the
sum of the lengths of its successful writes. -/
theorem runSession_bytes (cap : Option Nat) (psz : Nat)
    (rs : List (List Nat)) :
    (runSession cap psz rs).bytesSent =
      (((runSession cap psz rs).writes).map List.length).sum := by
  simp only [runSession]
  by_cases hpb : (prebufferLoop psz [] rs).1 = []
  · rw [if_pos hpb]
    simpa using steadyLoop_bytes cap 0 (prebufferLoop psz [] rs).2
  · rw [if_neg hpb]
    by_cases hw : writeOk cap 0 (prebufferLoop psz [] rs).1.length
    · rw [if_pos hw]
      have := steadyLoop_bytes cap (prebufferLoop psz [] rs).1.length
        (prebufferLoop psz [] rs).2
      simp only [List.map_cons, List.sum_cons]
      omega
    · rw [if_neg hw]
      simp

/-- A session against a sink of capacity `c` never records more than `c`
bytes sent. -/
theorem runSession_cap (c psz : Nat) (rs : List (List Nat)) :
    (runSession (some c) psz rs).bytesSent ≤ c := by
  simp only [runSession]
  by_cases hpb : (prebufferLoop psz [] rs).1 = []
  · rw [if_pos hpb]
    exact steadyLoop_cap c 0 _ (Nat.zero_le c)
  · rw [if_neg hpb]
    by_cases hw : writeOk (some c) 0 (prebufferLoop psz [] rs).1.length
    · rw [if_pos hw]
      have hz : (prebufferLoop psz [] rs).1.length ≤ c := by
        simpa [writeOk] using hw
      exact steadyLoop_cap c _ _ hz
    · rw [if_neg hw]
      simp

/-!
Lemmas about the metadata interleaver.
-/

/-- The padded metadata payload length is the raw length rounded up to a
multiple of 16. -/
theorem paddedMeta_length (title : List Nat) :
    (paddedMeta title).length = 16 * (((rawMeta title).length + 15) / 16) := by
  simp only [paddedMeta, List.length_append, List.length_replicate]
  omega

/-- Shape of a metadata block: its single length byte declares the padded
payload length in units of 16 bytes, the rest is exactly the padded payload,
and the padded payload length is a multiple of 16. -/
theorem metaBlock_shape (title : List Nat) :
    (metaBlock title).head? = some ((paddedMeta title).length / 16) ∧
    (metaBlock title).tail = paddedMeta title ∧
    16 ∣ (paddedMeta title).length ∧
    (metaBlock title).length = (paddedMeta title).length + 1 := by
  refine ⟨rfl, rfl, ?_, by simp [metaBlock]⟩
  rw [paddedMeta_length]
  exact Dvd.intro _ rfl

/-- Every metadata block in the interleaved stream is `metaBlock title`. -/
theorem interleaveGo_meta_mem (C M : Nat) (title : List Nat) :
    ∀ (fuel c : Nat) (src : List Nat) (bs : List Nat),
      StreamItem.meta bs ∈ interleaveGo C M title fuel c src →
      bs = metaBlock title := by
  intro fuel
  induction fuel with
  | zero => intro c src bs h; simp [interleaveGo] at h
  | succ fuel ih =>
    intro c src bs h
    by_cases ht : src.take (min C c) = []
    · simp [interleaveGo, ht] at h
    · by_cases hz : c - (src.take (min C c)).length = 0
      · rw [interleaveGo, if_neg ht, if_pos hz] at h
        simp only [List.mem_cons] at h
        rcases h with h | h | h
        · exact absurd h (by simp)
        · exact StreamItem.meta.inj h
        · exact ih M _ bs h
      · rw [interleaveGo, if_neg ht, if_neg hz] at h
        simp only [List.mem_cons] at h
        rcases h with h | h
        · exact absurd h (by simp)
        · exact ih _ _ bs h

/-- Number of metadata blocks produced by the interleaver loop: starting with
cadence counter `c` (with `0 < c ≤ M`), one block is emitted once `c` audio
bytes have passed and then one per further `M` bytes. -/
theorem interleaveGo_countMeta (C M : Nat) (title : List Nat) (hC : 0 < C) :
    ∀ (fuel c : Nat) (src : List Nat), 0 < c → c ≤ M → src.length ≤ fuel →
      countMeta (interleaveGo C M title fuel c src) =
        if src.length < c then 0 else (src.length - c) / M + 1 := by
  intro fuel
  induction fuel with
  | zero =>
    intro c src hc hM hfuel
    have hsrc : src = [] := List.eq_nil_of_length_eq_zero (Nat.le_zero.1 hfuel)
    subst hsrc
    simp [interleaveGo, countMeta, hc]
  | succ fuel ih =>
    intro c src hc hM hfuel
    match src with
    | [] => simp [interleaveGo, countMeta, hc]
    | b :: bs =>
      have hM0 : 0 < M := lt_of_lt_of_le hc hM
      have ht : (b :: bs).take (min C c) ≠ [] := by
        obtain ⟨m, hm⟩ : ∃ m, min C c = m + 1 := ⟨min C c - 1, by omega⟩
        rw [hm, List.take_succ_cons]
        simp
      have hdl : ((b :: bs).drop (min C c)).length ≤ fuel := by
        simp only [List.length_drop, List.length_cons]
        simp only [List.length_cons] at hfuel
        omega
      by_cases hz : c - ((b :: bs).take (min C c)).length = 0
      · rw [interleaveGo, if_neg ht, if_pos hz]
        simp only [countMeta]
        rw [ih M ((b :: bs).drop (min C c)) hM0 (le_refl M) hdl]
        simp only [List.length_take, List.length_drop, List.length_cons] at hz ⊢
        split_ifs with h1 h2 h2
        · exfalso; omega
        · have hlt : bs.length + 1 - c < M := by omega
          rw [Nat.div_eq_of_lt hlt]
        · exfalso; omega
        · have e : (bs.length + 1 - c) / M = (bs.length + 1 - c - M) / M + 1 :=
            Nat.div_eq_sub_div hM0 (by omega)
          rw [e]
          have e2 : bs.length + 1 - min C c - M = bs.length + 1 - c - M := by
            omega
          rw [e2]
      · rw [interleaveGo, if_neg ht, if_neg hz]
        simp only [countMeta]
        rw [ih (c - ((b :: bs).take (min C c)).length) ((b :: bs).drop (min C c))
          (by omega) (by simp only [List.length_take, List.length_cons] at hz ⊢; omega) hdl]
        simp only [List.length_take, List.length_drop, List.length_cons] at hz ⊢
        split_ifs with h1 h2 h2
        · rfl
        · exfalso; omega
        · exfalso; omega
        · have e : bs.length + 1 - min C c - (c - min (min C c) (bs.length + 1)) =
              bs.length + 1 - c := by omega
          rw [e]

/-- Audio spacing of the metadata blocks: starting with cadence counter `c`
and `acc` audio bytes already counted, the first block arrives after `c`
further audio bytes and every later block after exactly `M` audio bytes. -/
theorem interleaveGo_metaGaps (C M : Nat) (title : List Nat) (hC : 0 < C) :
    ∀ (fuel c : Nat) (src : List Nat) (acc : Nat),
      0 < c → c ≤ M → src.length ≤ fuel →
      metaGaps acc (interleaveGo C M title fuel c src) =
        if src.length < c then []
        else (acc + c) :: List.replicate ((src.length - c) / M) M := by
  intro fuel
  induction fuel with
  | zero =>
    intro c src acc hc hM hfuel
    have hsrc : src = [] := List.eq_nil_of_length_eq_zero (Nat.le_zero.1 hfuel)
    subst hsrc
    simp [interleaveGo, metaGaps, hc]
  | succ fuel ih =>
    intro c src acc hc hM hfuel
    match src with
    | [] => simp [interleaveGo, metaGaps, hc]
    | b :: bs =>
      have hM0 : 0 < M := lt_of_lt_of_le hc hM
      have ht : (b :: bs).take (min C c) ≠ [] := by
        obtain ⟨m, hm⟩ : ∃ m, min C c = m + 1 := ⟨min C c - 1, by omega⟩
        rw [hm, List.take_succ_cons]
        simp
      have hdl : ((b :: bs).drop (min C c)).length ≤ fuel := by
        simp only [List.length_drop, List.length_cons]
        simp only [List.length_cons] at hfuel
        omega
      by_cases hz : c - ((b :: bs).take (min C c)).length = 0
      · rw [interleaveGo, if_neg ht, if_pos hz]
        simp only [metaGaps]
        rw [ih M ((b :: bs).drop (min C c)) 0 hM0 (le_refl M) hdl]
        simp only [List.length_take, List.length_drop, List.length_cons] at hz ⊢
        have hnc : ¬ bs.length + 1 < c := by omega
        rw [if_neg hnc]
        have e1 : min (min C c) (bs.length + 1) = c := by omega
        rw [e1]
        have ek : min C c = c := by omega
        rw [ek]
        by_cases hlt : bs.length + 1 - c < M
        · rw [if_pos hlt, Nat.div_eq_of_lt hlt]
          rfl
        · rw [if_neg hlt]
          have e : (bs.length + 1 - c) / M = (bs.length + 1 - c - M) / M + 1 :=
            Nat.div_eq_sub_div hM0 (by omega)
          rw [e, List.replicate_succ, Nat.zero_add]
      · rw [interleaveGo, if_neg ht, if_neg hz]
        simp only [metaGaps]
        rw [ih (c - ((b :: bs).take (min C c)).length) ((b :: bs).drop (min C c))
          (acc + ((b :: bs).take (min C c)).length)
          (by simp only [List.length_take, List.length_cons] at hz ⊢; omega)
          (by simp only [List.length_take, List.length_cons] at hz ⊢; omega) hdl]
        simp only [List.length_take, List.length_drop, List.length_cons] at hz ⊢
        split_ifs with h1 h2 h2
        · rfl
        · exfalso; omega
        · exfalso; omega
        · have e1 : acc + min (min C c) (bs.length + 1) +
              (c - min (min C c) (bs.length + 1)) = acc + c := by omega
          have e2 : bs.length + 1 - min C c -
              (c - min (min C c) (bs.length + 1)) = bs.length + 1 - c := by omega
          rw [e1, e2]

/-- Teardown always ends with the encoder reaped, whether or not it honours
the graceful signal. -/
theorem teardownProc_reaped (b : EncoderBehavior) :
    (teardownProc b).2 = PState.reaped := by
  obtain ⟨e⟩ := b
  cases e <;> rfl

/-- The teardown trace: graceful path when the process exits in the wait
window, forced-kill path otherwise. -/
theorem teardownProc_trace (b : EncoderBehavior) :
    (teardownProc b).1 =
      if b.exitsWithinTimeout then [TAct.terminate, TAct.waitGrace 2]
      else [TAct.terminate, TAct.waitGrace 2, TAct.kill, TAct.waitReap] := by
  obtain ⟨e⟩ := b
  cases e <;> rfl

/-- Length of the concatenation of `k` copies of a list. -/
theorem flatten_replicate_length (k : Nat) (l : List Nat) :
    ((List.replicate k l).flatten).length = k * l.length := by
  induction k with
  | zero => simp
  | succ k ih =>
    simp only [List.replicate_succ, List.flatten_cons, List.length_append, ih,
      Nat.succ_mul]
    exact Nat.add_comm _ _

/-!
Claim theorems.
-/

/-- C1: for every session and every sequence of (possibly short, all nonempty
before EOF) reads from the encoder's stdout, the concatenation of all
audio-payload bytes written to the client socket (the pre-buffer write
followed by the steady-state chunk writes; this code emits no metadata
blocks) equals the concatenation of the bytes read from the source, in the
same order, with no loss, duplication, or transformation. -/
theorem c1_bytes_forwarded_verbatim (psz : Nat) (rs : List (List Nat))
    (h : ∀ r ∈ rs, r ≠ []) :
    ((runSession none psz rs).writes).flatten = rs.flatten :=
  (runSession_none_spec psz rs h).1

/-- Witness for C1 at a concrete sequence of short reads. -/
theorem c1_bytes_forwarded_verbatim_witness :
    (∀ r ∈ [[1, 2, 3], [4, 5], [6]], r ≠ ([] : List Nat)) ∧
    ((runSession none 4 [[1, 2, 3], [4, 5], [6]]).writes).flatten =
      [[1, 2, 3], [4, 5], [6]].flatten :=
  ⟨by decide, c1_bytes_forwarded_verbatim 4 [[1, 2, 3], [4, 5], [6]] (by decide)⟩

/-- C2 (metadata interleaver modelled from the spec, the code having dropped
it): with metadata enabled at cadence `M` (a multiple of the 16-byte unit),
relaying `N` audio bytes emits exactly `N / M` metadata blocks, consecutive
blocks are separated by exactly `M` audio bytes (as is the stream start from
the first block), and each block's single declared length byte equals its
null-padded payload length divided by 16. -/
theorem c2_metadata_cadence (C M : Nat) (title : List Nat) (src : List Nat)
    (hC : 0 < C) (hM : 0 < M) (_hdvd : 16 ∣ M) :
    countMeta (interleave C M title src) = src.length / M ∧
    metaGaps 0 (interleave C M title src) =
      List.replicate (src.length / M) M ∧
    ∀ bs, StreamItem.meta bs ∈ interleave C M title src →
      bs.head? = some ((paddedMeta title).length / 16) ∧
      bs.tail = paddedMeta title ∧
      16 ∣ (paddedMeta title).length := by
  refine ⟨?_, ?_, ?_⟩
  · rw [interleave,
      interleaveGo_countMeta C M title hC src.length M src hM (le_refl M)
        (le_refl _)]
    by_cases hlt : src.length < M
    · rw [if_pos hlt, Nat.div_eq_of_lt hlt]
    · rw [if_neg hlt]
      exact (Nat.div_eq_sub_div hM (not_lt.1 hlt)).symm
  · rw [interleave,
      interleaveGo_metaGaps C M title hC src.length M src 0 hM (le_refl M)
        (le_refl _)]
    by_cases hlt : src.length < M
    · rw [if_pos hlt, Nat.div_eq_of_lt hlt]
      rfl
    · rw [if_neg hlt, Nat.zero_add]
      conv_rhs => rw [Nat.div_eq_sub_div hM (not_lt.1 hlt)]
      rw [List.replicate_succ]
  · intro bs hmem
    have hb := interleaveGo_meta_mem C M title src.length M src bs hmem
    subst hb
    exact ⟨(metaBlock_shape title).1, (metaBlock_shape title).2.1,
      (metaBlock_shape title).2.2.1⟩

/-- Witness for C2: chunk size 4, cadence 16, a 40-byte source. -/
theorem c2_metadata_cadence_witness :
    ((0 : Nat) < 4 ∧ (0 : Nat) < 16 ∧ 16 ∣ 16) ∧
    countMeta (interleave 4 16 [65] (List.range 40)) =
      (List.range 40).length / 16 ∧
    metaGaps 0 (interleave 4 16 [65] (List.range 40)) =
      List.replicate ((List.range 40).length / 16) 16 :=
  ⟨⟨by decide, by decide, by decide⟩,
   (c2_metadata_cadence 4 16 [65] (List.range 40) (by decide) (by decide)
     (by decide)).1,
   (c2_metadata_cadence 4 16 [65] (List.range 40) (by decide) (by decide)
     (by decide)).2.1⟩

/-- C3 counterexample: on spawn failure the client has already received the
200 response and stream headers — no server-error status is ever sent (the
outer `except` only logs).  The claim's "client receives an HTTP
server-error status" is false; the rest of the claim (no audio bytes, relay
never entered) holds. -/
theorem c3_spawn_failure_counterexample :
    statusCode (doGET "/stream.mp3" SpawnResult.fail ⟨true⟩ none prebuffer_size
      []) = 200 ∧
    ¬ 500 ≤ statusCode (doGET "/stream.mp3" SpawnResult.fail ⟨true⟩ none
      prebuffer_size []) ∧
    writesOf (doGET "/stream.mp3" SpawnResult.fail ⟨true⟩ none prebuffer_size
      []) = [] := by
  refine ⟨rfl, by decide, rfl⟩

/-- C3 amended: if spawning the encoder fails, no audio bytes are ever
written to the client, the relay loop is never entered, and no teardown
occurs — but the client receives the already-sent 200 status and stream
headers, not a server-error status. -/
theorem c3_spawn_failure (b : EncoderBehavior) (cap : Option Nat) (psz : Nat)
    (rs : List (List Nat)) :
    doGET "/stream.mp3" SpawnResult.fail b cap psz rs =
      Response.stream streamHeaders none ∧
    statusCode (doGET "/stream.mp3" SpawnResult.fail b cap psz rs) = 200 ∧
    sessionOf (doGET "/stream.mp3" SpawnResult.fail b cap psz rs) = none ∧
    writesOf (doGET "/stream.mp3" SpawnResult.fail b cap psz rs) = [] :=
  ⟨rfl, rfl, rfl, rfl⟩

/-- C4: on every session teardown path the encoder is first sent the
graceful terminate, waited on for at most 2 time units, force-killed iff it
ignored the graceful signal, and always ends reaped; the teardown is
attached to every session of `do_GET` whatever the source reads and sink
behaviour. -/
theorem c4_teardown_always_reaps (b : EncoderBehavior) (cap : Option Nat)
    (psz : Nat) (rs : List (List Nat)) :
    sessionOf (doGET "/stream.mp3" SpawnResult.ok b cap psz rs) =
      some (runSession cap psz rs, teardownProc b) ∧
    (teardownProc b).2 = PState.reaped ∧
    (teardownProc b).1.head? = some TAct.terminate ∧
    TAct.waitGrace 2 ∈ (teardownProc b).1 ∧
    (TAct.kill ∈ (teardownProc b).1 ↔ b.exitsWithinTimeout = false) := by
  refine ⟨rfl, teardownProc_reaped b, ?_, ?_, ?_⟩ <;>
    obtain ⟨e⟩ := b <;> cases e <;> decide

/-- C5: no bytes are written to the client before the pre-buffer holds at
least `min psz total`, and when the pre-buffer is nonempty it is the first
sink write, sent whole in a single write operation before the steady-state
loop. -/
theorem c5_prebuffer_min_bound (psz : Nat) (rs : List (List Nat))
    (h : ∀ r ∈ rs, r ≠ []) :
    min psz rs.flatten.length ≤ (prebufferLoop psz [] rs).1.length ∧
    ((prebufferLoop psz [] rs).1 ≠ [] →
      (runSession none psz rs).writes.head? =
        some (prebufferLoop psz [] rs).1) := by
  constructor
  · rcases prebufferLoop_stop psz [] rs h with h1 | h2
    · exact le_trans (min_le_left _ _) h1
    · rw [h2.2]
      simp only [List.nil_append]
      exact min_le_right psz rs.flatten.length
  · intro hpb
    simp only [runSession]
    rw [if_neg hpb]
    simp [writeOk]

/-- Witness for C5 at a concrete source. -/
theorem c5_prebuffer_min_bound_witness :
    min 4 ([[1, 2, 3], [4, 5]] : List (List Nat)).flatten.length ≤
      (prebufferLoop 4 [] [[1, 2, 3], [4, 5]]).1.length ∧
    (runSession none 4 [[1, 2, 3], [4, 5]]).writes.head? =
      some (prebufferLoop 4 [] [[1, 2, 3], [4, 5]]).1 :=
  ⟨(c5_prebuffer_min_bound 4 [[1, 2, 3], [4, 5]] (by decide)).1,
   (c5_prebuffer_min_bound 4 [[1, 2, 3], [4, 5]] (by decide)).2 (by decide)⟩

/-- C6: when a sink write raises a disconnect error, the session ends with
no retry — the logged `bytes_sent` equals exactly the bytes of the
successful writes (the failed write contributes nothing), never exceeds what
the sink accepted, and the encoder is terminated (graceful signal first) and
reaped. -/
theorem c6_disconnect_no_retry (b : EncoderBehavior) (c psz : Nat)
    (rs : List (List Nat))
    (_h : (runSession (some c) psz rs).disconnected = true) :
    sessionOf (doGET "/stream.mp3" SpawnResult.ok b (some c) psz rs) =
      some (runSession (some c) psz rs, teardownProc b) ∧
    (runSession (some c) psz rs).bytesSent =
      (((runSession (some c) psz rs).writes).map List.length).sum ∧
    (runSession (some c) psz rs).bytesSent ≤ c ∧
    (teardownProc b).1.head? = some TAct.terminate ∧
    (teardownProc b).2 = PState.reaped :=
  ⟨rfl, runSession_bytes (some c) psz rs, runSession_cap c psz rs,
   by obtain ⟨e⟩ := b; cases e <;> rfl, teardownProc_reaped b⟩

/-- Witness for C6: the spec's scenario — the sink accepts 5 of 20 expected
bytes, the write of the next chunk raises, and 5 is reported. -/
theorem c6_disconnect_no_retry_witness :
    (runSession (some 5) 0 [[1, 2, 3, 4, 5], [6, 7, 8, 9, 10],
      [11, 12, 13, 14, 15, 16, 17, 18, 19, 20]]).disconnected = true ∧
    (runSession (some 5) 0 [[1, 2, 3, 4, 5], [6, 7, 8, 9, 10],
      [11, 12, 13, 14, 15, 16, 17, 18, 19, 20]]).bytesSent =
      (((runSession (some 5) 0 [[1, 2, 3, 4, 5], [6, 7, 8, 9, 10],
        [11, 12, 13, 14, 15, 16, 17, 18, 19, 20]]).writes).map
          List.length).sum ∧
    (runSession (some 5) 0 [[1, 2, 3, 4, 5], [6, 7, 8, 9, 10],
      [11, 12, 13, 14, 15, 16, 17, 18, 19, 20]]).bytesSent ≤ 5 :=
  ⟨by decide,
   (c6_disconnect_no_retry ⟨true⟩ 5 0 [[1, 2, 3, 4, 5], [6, 7, 8, 9, 10],
     [11, 12, 13, 14, 15, 16, 17, 18, 19, 20]] (by decide)).2.1,
   (c6_disconnect_no_retry ⟨true⟩ 5 0 [[1, 2, 3, 4, 5], [6, 7, 8, 9, 10],
     [11, 12, 13, 14, 15, 16, 17, 18, 19, 20]] (by decide)).2.2.1⟩

/-- C7: if the source returns zero bytes on the very first read, the session
ends normally with zero bytes sent, no pre-buffer write, no disconnect error
surfaced beyond the already-sent 200 headers — and no metadata block (the
interleaver, even in its spec model, emits nothing for an empty source). -/
theorem c7_immediate_eof (b : EncoderBehavior) (cap : Option Nat)
    (psz : Nat) :
    doGET "/stream.mp3" SpawnResult.ok b cap psz [] =
      Response.stream streamHeaders (some (⟨[], 0, false⟩, teardownProc b)) ∧
    (runSession cap psz []).writes = [] ∧
    (runSession cap psz []).bytesSent = 0 ∧
    (runSession cap psz []).disconnected = false ∧
    statusCode (doGET "/stream.mp3" SpawnResult.ok b cap psz []) = 200 ∧
    ∀ (C M : Nat) (title : List Nat), interleave C M title [] = [] := by
  have hrun : runSession cap psz [] = ⟨[], 0, false⟩ := by
    simp [runSession, prebufferLoop, steadyLoop]
  exact ⟨by simp [doGET, hrun], by rw [hrun], by rw [hrun], by rw [hrun], rfl,
    fun C M title => rfl⟩

/-- C8 counterexample: the connection-handling header is not selectable by
configuration — the code hardcodes `Connection: keep-alive` (source line 33;
the `close` variant exists only as a comment), so the stream response never
carries `Connection: close`. -/
theorem c8_connection_header_counterexample :
    headersOf (doGET "/stream.mp3" SpawnResult.ok ⟨true⟩ none 0 []) =
      streamHeaders ∧
    streamHeaders.lookup "Connection" = some "keep-alive" ∧
    ¬ streamHeaders.lookup "Connection" = some "close" := by
  refine ⟨rfl, by decide, by decide⟩

/-- C8 amended: a GET of `/stream.mp3` receives status 200 with
`Content-Type: audio/mpeg`, `Cache-Control: no-cache`, and a Connection
header fixed to `keep-alive` (not configurable); a GET of `/` receives the
200 status page; every other path receives 404. -/
theorem c8_routing (p : String) (s : SpawnResult) (b : EncoderBehavior)
    (cap : Option Nat) (psz : Nat) (rs : List (List Nat)) :
    (p = "/stream.mp3" →
      statusCode (doGET p s b cap psz rs) = 200 ∧
      headersOf (doGET p s b cap psz rs) = streamHeaders ∧
      streamHeaders.lookup "Content-Type" = some "audio/mpeg" ∧
      streamHeaders.lookup "Cache-Control" = some "no-cache" ∧
      streamHeaders.lookup "Connection" = some "keep-alive") ∧
    (p = "/" → statusCode (doGET p s b cap psz rs) = 200) ∧
    (p ≠ "/stream.mp3" → p ≠ "/" →
      statusCode (doGET p s b cap psz rs) = 404) := by
  refine ⟨?_, ?_, ?_⟩
  · intro hp
    subst hp
    cases s <;> exact ⟨rfl, rfl, by decide, by decide, by decide⟩
  · intro hp
    subst hp
    simp [doGET, statusCode]
  · intro h1 h2
    simp [doGET, if_neg h1, if_neg h2, statusCode]

/-- Witness for C8 at concrete paths. -/
theorem c8_routing_witness :
    statusCode (doGET "/stream.mp3" SpawnResult.ok ⟨true⟩ none 0 []) = 200 ∧
    statusCode (doGET "/other" SpawnResult.ok ⟨true⟩ none 0 []) = 404 :=
  ⟨(c8_routing "/stream.mp3" SpawnResult.ok ⟨true⟩ none 0 []).1 rfl |>.1,
   (c8_routing "/other" SpawnResult.ok ⟨true⟩ none 0 []).2.2 (by decide)
     (by decide)⟩

/-- The guarded single replacement of `play_stream_on_sonos` is exactly the
spec transform: a leading `http` scheme is replaced once by the vendor
scheme, any other URL is unchanged. -/
theorem radio_url_spec (u : List Char) :
    radio_url u =
      if httpScheme.isPrefixOf u then rinconScheme ++ u.drop 7 else u := by
  by_cases h : httpScheme.isPrefixOf u
  · rw [radio_url, if_pos h, if_pos h]
    cases u with
    | nil => exact absurd h (by decide)
    | cons c s =>
      rw [replaceOnce, if_pos h]
      rfl
  · rw [radio_url, if_neg h, if_neg h]

/-- C9: the renderer push performs stop, then clear-queue, then submit-URI,
in that order (any failing call cuts the sequence there, never reorders it);
it returns a boolean — true exactly when all three calls succeed, in which
case the full sequence ran — and never raises to its caller; the submitted
URI is the input URL with a leading `http` scheme replaced exactly once by
the vendor streaming scheme, and the URL unchanged otherwise. -/
theorem c9_renderer_push (b : SonosBehavior) (u : List Char) :
    (play_stream_on_sonos b u).1 <+:
      [SAct.stop, SAct.clearQueue, SAct.playUri (radio_url u)] ∧
    (play_stream_on_sonos b u).2 =
      (!b.stopFails && !b.clearFails && !b.playFails) ∧
    ((play_stream_on_sonos b u).2 = true →
      (play_stream_on_sonos b u).1 =
        [SAct.stop, SAct.clearQueue, SAct.playUri (radio_url u)]) ∧
    radio_url u =
      (if httpScheme.isPrefixOf u then rinconScheme ++ u.drop 7 else u) := by
  obtain ⟨bs, bc, bp⟩ := b
  refine ⟨?_, ?_, ?_, radio_url_spec u⟩ <;>
    cases bs <;> cases bc <;> cases bp <;>
      simp [play_stream_on_sonos, List.prefix_iff_eq_take]

/-- Witness for C9: a healthy device and the bare `http` scheme URL. -/
theorem c9_renderer_push_witness :
    (play_stream_on_sonos ⟨false, false, false⟩ httpScheme).2 = true ∧
    (play_stream_on_sonos ⟨false, false, false⟩ httpScheme).1 =
      [SAct.stop, SAct.clearQueue, SAct.playUri (radio_url httpScheme)] ∧
    radio_url httpScheme = rinconScheme :=
  ⟨by decide,
   (c9_renderer_push ⟨false, false, false⟩ httpScheme).2.2.1 (by decide),
   by decide⟩

/-- The reads of the C10 counterexample session: five full pre-buffer reads
of 8192 bytes followed by 52428780 full steady-state chunks of 2048 bytes —
exactly 107374182400 bytes in total, every read of the size the code
requests. -/
def hundredGiBReads : List (List Nat) :=
  List.replicate 5 (List.replicate prebufferReadSize 0) ++
    List.replicate 52428780 (List.replicate chunk_size 0)

/-- C10 counterexample: the claim's "the declared length never matches the
actual stream length" fails — a session that relays exactly 100 GiB before
EOF has `bytes_sent` equal to the declared Content-Length. -/
theorem c10_content_length_counterexample :
    (runSession none prebuffer_size hundredGiBReads).bytesSent =
      fakeContentLength := by
  have hne : ∀ r ∈ hundredGiBReads, r ≠ [] := by
    intro r hr
    rcases List.mem_append.1 hr with hm | hm <;>
      rw [List.eq_of_mem_replicate hm] <;> decide
  rw [(runSession_none_spec prebuffer_size hundredGiBReads hne).2.1]
  rw [hundredGiBReads, List.flatten_append, List.length_append,
    flatten_replicate_length, flatten_replicate_length,
    List.length_replicate, List.length_replicate]
  decide

/-- C10 amended: every response to a GET of the stream path carries a
Content-Length header whose value is the fixed constant 107374182400
(100 GiB), independent of configuration and of the session's reads, sink and
spawn outcome; the declared length is therefore unrelated to the actual
stream length and differs from it except in the edge case of a session that
relays exactly 107374182400 bytes. -/
theorem c10_fixed_content_length (s : SpawnResult) (b : EncoderBehavior)
    (cap : Option Nat) (psz : Nat) (rs : List (List Nat)) :
    headersOf (doGET "/stream.mp3" s b cap psz rs) = streamHeaders ∧
    streamHeaders.lookup "Content-Length" =
      some (toString fakeContentLength) ∧
    fakeContentLength = 107374182400 ∧
    toString fakeContentLength = "107374182400" := by
  refine ⟨?_, by decide, by decide, by decide⟩
  cases s <;> rfl
